import Mathlib

/-!
Verification of the timeline-to-ffmpeg compiler and render supervisor of the
video-editor server (`src/server/src/video.js`, the render worker, and
`src/server/src/queue.js`), as a shallow embedding in Lean.

Conventions of the embedding:
* JS numbers that carry media times (`start`, `in`, `out`, `fps`) are `ℚ`.
* JS template-string interpolation of a number is modelled by `qs`: an
  integer-valued rational prints exactly as JS prints it (decimal digits,
  possibly a leading minus); a non-integral rational prints as `num/den`,
  which differs from JS float printing but no claim under audit compares
  those characters against a JS-produced string.
* Promise rejection / a thrown exception is modelled by `Except.error`.
* The ambient JS runtime (clock, random source) is modelled by `Env`; the
  compiler never consults it in the source, so the embedded
  `buildFfmpegCommand` takes an `Env` argument and ignores it.
-/

/-- Ambient JS runtime state available to the process (Date.now, Math.random).
`buildFfmpegCommand` in the source performs no reads of any such state. -/
structure Env where
  now : Nat
  rand : Nat → Nat

/-- A timeline clip (`c` in the source): source-file reference, placement
`start` on the master timeline, and trim bounds `in`/`out` (here `inP`). -/
structure Clip where
  fileId : String
  start : ℚ
  inP : ℚ
  out : ℚ
deriving DecidableEq, Repr

/-- A timeline track: `type` is `"video"` or `"audio"`; `clips` is ordered. -/
structure Track where
  type : String
  clips : List Clip
deriving DecidableEq, Repr

/-- A resolved file record (entries of the `files` argument). -/
structure FileRec where
  id : String
  path : String
  mimetype : String
  name : String
deriving DecidableEq, Repr

/-- The project/timeline passed to the compiler.  `fps` is optional because
the source destructures `{ fps=30, tracks=[] } = project`. -/
structure Project where
  fps : Option ℚ
  tracks : List Track
deriving DecidableEq, Repr

/-- Render options: `{ preset='crispstream', renditions=['1080p'] } = options || {}`. -/
structure Opts where
  preset : Option String
  renditions : Option (List String)
deriving DecidableEq, Repr

/-- A clip merged with its resolved file, as built by
`{ ...c, path: f.path, mimetype: f.mimetype, name: f.name }`. -/
structure RClip where
  clip : Clip
  path : String
  mimetype : String
  name : String
deriving DecidableEq, Repr

def rclipDefault : RClip := ⟨⟨"", 0, 0, 0⟩, "", "", ""⟩

/-- JS number-to-string for the rationals interpolated into filter strings.
Integer values render exactly as in JS; non-integral values render as an
exact fraction (see the header comment). -/
def qs (q : ℚ) : String :=
  if q.den = 1 then toString q.num else toString q.num ++ "/" ++ toString q.den

/-- `const f = files.find(x => x.id === c.fileId)`; unresolvable clips are
skipped (`if (!f) continue`). -/
def resolveClips (files : List FileRec) : List Clip → List RClip
  | [] => []
  | c :: rest =>
    match files.find? (fun x => x.id == c.fileId) with
    | none => resolveClips files rest
    | some f => ⟨c, f.path, f.mimetype, f.name⟩ :: resolveClips files rest

/-- The double loop over `tracks`/`t.clips` that splits resolved clips into
`videoClips` and `audioClips`, preserving track/clip enumeration order. -/
def collectClips : List Track → List FileRec → List RClip × List RClip
  | [], _ => ([], [])
  | t :: rest, files =>
    let va := collectClips rest files
    if t.type = "video" then (resolveClips files t.clips ++ va.1, va.2)
    else if t.type = "audio" then (va.1, resolveClips files t.clips ++ va.2)
    else va

/-- `let duration = 10; for c of [...videoClips, ...audioClips] duration =
max(duration, c.start + (c.out - c.in)); duration = Math.ceil(duration + 1)`. -/
def codeDuration (v a : List RClip) : ℤ :=
  ⌈((v ++ a).foldl (fun d c => max d (c.clip.start + (c.clip.out - c.clip.inP))) (10 : ℚ)) + 1⌉

/-- Output canvas width, fixed 1920 in the source. -/
def outW : ℕ := 1920

/-- Output canvas height, fixed 1080 in the source. -/
def outH : ℕ := 1080

/-- The lavfi color source spec `color=c=black:s=${width}x${height}`. -/
def blackSrc : String := "color=c=black:s=" ++ toString outW ++ "x" ++ toString outH

/-- The per-video-clip filter chain pushed for input index `vi`:
trim to [in,out], reset PTS, aspect-preserving scale, pad/center on black,
format with alpha, shift PTS by `start`. -/
def videoChainStr (vi : ℕ) (c : RClip) : String :=
  let w := toString outW
  let h := toString outH
  "[" ++ toString vi ++ ":v]trim=start=" ++ qs c.clip.inP ++ ":end=" ++ qs c.clip.out ++
  ",setpts=PTS-STARTPTS,scale='min(" ++ w ++ ",iw*" ++ h ++ "/ih)':'min(" ++ h ++
  ",ih*" ++ w ++ "/iw)':eval=frame,pad=" ++ w ++ ":" ++ h ++ ":(" ++ w ++ "-iw)/2:(" ++
  h ++ "-ih)/2:black,format=yuva420p,setpts=PTS+" ++ qs c.clip.start ++ "/TB[v" ++
  toString vi ++ "]"

/-- `const delayMs = Math.max(0, Math.floor(clip.start*1000))`. -/
def delayMs (c : Clip) : ℤ := max 0 ⌊c.start * 1000⌋

/-- The per-audio-clip filter chain pushed for input index `ai`:
atrim to [in,out], reset PTS, adelay by `delayMs` across all channels. -/
def audioChainStr (ai : ℕ) (c : RClip) : String :=
  "[" ++ toString ai ++ ":a]atrim=start=" ++ qs c.clip.inP ++ ":end=" ++ qs c.clip.out ++
  ",asetpts=PTS-STARTPTS,adelay=" ++ toString (delayMs c.clip) ++ ":all=1[a" ++
  toString ai ++ "]"

/-- The video-clip loop: pushes `-i path` onto `inputArgs`, the chain string
onto `filterGraphParts`, and the label `v${vi}` onto `vlabels`, incrementing `vi`. -/
def videoLoopAux : List RClip → ℕ → List String × List String × List String
  | [], _ => ([], [], [])
  | c :: rest, vi =>
    let t := videoLoopAux rest (vi + 1)
    ("-i" :: c.path :: t.1, videoChainStr vi c :: t.2.1, ("v" ++ toString vi) :: t.2.2)

/-- The audio-clip loop: pushes `-i path`, the audio chain string and the
label `a${ai}`, incrementing `ai` from its start value `1 + #videoClips`. -/
def audioLoopAux : List RClip → ℕ → List String × List String × List String
  | [], _ => ([], [], [])
  | c :: rest, ai =>
    let t := audioLoopAux rest (ai + 1)
    ("-i" :: c.path :: t.1, audioChainStr ai c :: t.2.1, ("a" ++ toString ai) :: t.2.2)

/-- One overlay step of the compositing loop: composite `last` and `vlabel`
with `overlay=format=auto`, gated by
`enable='between(t,start,start+(out-in))'`, labelled `base${count}`. -/
def overlayStep (lastLabel vlabel : String) (count : ℕ) (c : RClip) : String :=
  let s0 := qs c.clip.start
  let s1 := qs (c.clip.start + (c.clip.out - c.clip.inP))
  "[" ++ lastLabel ++ "][" ++ vlabel ++ "]overlay=format=auto:enable='between(t," ++
  s0 ++ "," ++ s1 ++ ")'[base" ++ toString count ++ "]"

/-- The overlay loop: `last` starts at `0:v`, `count` at 1; each iteration
reads `videoClips[count-1]` and threads the new label through. Returns the
pushed parts and the final `last` (the video output label). -/
def overlayAux (vclips : List RClip) : List String → String → ℕ → List String × String
  | [], lastLabel, _ => ([], lastLabel)
  | vl :: rest, lastLabel, count =>
    let c := vclips.getD (count - 1) rclipDefault
    let outLbl := "base" ++ toString count
    let t := overlayAux vclips rest outLbl (count + 1)
    (overlayStep lastLabel vl count c :: t.1, t.2)

/-- `${alabels.map(x=>`[${x}]`).join('')}amix=inputs=${n}:normalize=0[aout]`. -/
def amixStr (alabels : List String) : String :=
  String.join (alabels.map (fun x => "[" ++ x ++ "]")) ++
  "amix=inputs=" ++ toString alabels.length ++ ":normalize=0[aout]"

/-- Encoder preset selection: `fast` → veryfast/23, `quality` → veryslow/18,
anything else (including the default `crispstream`) → medium/20. -/
def presetSettings (options : Option Opts) : String × ℕ :=
  let preset := (options.bind (fun o => o.preset)).getD "crispstream"
  if preset = "fast" then ("veryfast", 23)
  else if preset = "quality" then ("veryslow", 18)
  else ("medium", 20)

/-- `buildFfmpegCommand(project, files, options)` — the pure timeline-to-argv
compiler.  The `Env` argument models the ambient JS runtime, which the source
function never reads. -/
def buildFfmpegCommand (_env : Env) (project : Project) (files : List FileRec)
    (options : Option Opts) : List String :=
  let fpsv : ℚ := project.fps.getD 30
  let va := collectClips project.tracks files
  let vclips := va.1
  let aclips := va.2
  let dur := codeDuration vclips aclips
  let baseIn : List String :=
    ["-f", "lavfi", "-t", toString dur, "-r", qs fpsv, "-i", blackSrc]
  let vt := videoLoopAux vclips 1
  let aiStart := 1 + vclips.length
  let at' := audioLoopAux aclips aiStart
  let ov := overlayAux vclips vt.2.2 "0:v" 1
  let alabels := at'.2.2
  let fgParts := vt.2.1 ++ ov.1 ++ at'.2.1 ++
    (if alabels.isEmpty then [] else [amixStr alabels])
  let fg := String.intercalate ";" fgParts
  let ps := presetSettings options
  let vcodec : List String :=
    ["-c:v", "libx264", "-preset", ps.1, "-crf", toString ps.2, "-pix_fmt", "yuv420p"]
  let acodec : List String := ["-c:a", "aac", "-b:a", "192k"]
  baseIn ++ vt.1 ++ at'.1 ++
  ["-filter_complex", fg] ++
  ["-map", "[" ++ ov.2 ++ "]"] ++
  (if alabels.isEmpty then ["-an"] else ["-map", "[aout]"] ++ acodec) ++
  vcodec ++ ["-movflags", "+faststart"]

def env0 : Env := ⟨0, fun _ => 0⟩

/-! ### Process executor (`execCmd`, `execFfmpegWithProgress`)

A settled promise is modelled by `Except`: `Except.error` is rejection.
The `close` handlers are the only paths that settle these promises once the
child process has exited, so the executor's behaviour at exit code `code`
with accumulated streams is exactly the value below. -/

/-- The `close` handler of `execCmd`: resolve `{code, stdout, stderr}` when
`code === 0`, otherwise reject `new Error(\x60cmd failed (${code}): ${stderr}\x60)`. -/
def execCmdClose (code : ℤ) (stdout stderr : String) :
    Except String (ℤ × String × String) :=
  if code = 0 then Except.ok (code, stdout, stderr)
  else Except.error ("cmd failed (" ++ toString code ++ "): " ++ stderr)

/-- The `close` handler of `execFfmpegWithProgress`: resolve `{code, stderr}`
when `code === 0`, otherwise reject
`new Error(\x60ffmpeg failed (${code}): ${stderr}\x60)`. -/
def ffmpegClose (code : ℤ) (stderr : String) : Except String (ℤ × String) :=
  if code = 0 then Except.ok (code, stderr)
  else Except.error ("ffmpeg failed (" ++ toString code ++ "): " ++ stderr)

/-! ### Progress reporter (the `stderr.on('data')` handler)

Each raw chunk `s` is appended to the accumulated stderr and matched against
the regex `/time=([\d:.]+)/`; on a match (and when a job id was supplied) the
captured group is published to the shared store under key `job:<jobId>` as the
`time` field of a `{status:'running', time, updatedAt}` value.  We model the
published values in publication order. -/

def isTimeChar (c : Char) : Bool := c.isDigit || c = ':' || c = '.'

/-- First match of `/time=([\d:.]+)/` over a character list: at each position
try to read the literal `time=` followed by a nonempty run of `[\d:.]`;
on failure advance one position, exactly as the regex engine does. -/
def firstTimeTok : List Char → Option String
  | [] => none
  | c :: rest =>
    if ("time=".data).isPrefixOf (c :: rest) then
      let run := ((c :: rest).drop 5).takeWhile isTimeChar
      if run.isEmpty then firstTimeTok rest else some run.asString
    else firstTimeTok rest

/-- `s.match(/time=([\d:.]+)/)`, returning the captured group `m[1]`. -/
def extractTime (s : String) : Option String := firstTimeTok s.data

/-- All matches of the token in a stream (as `/time=([\d:.]+)/g` would find
them, resuming after each match), with explicit fuel so the recursion is
structural.  Used to express what the encoder's whole stderr stream reports,
independent of chunk boundaries. -/
def allTimeToksAux : ℕ → List Char → List String
  | 0, _ => []
  | _, [] => []
  | fuel + 1, c :: rest =>
    if ("time=".data).isPrefixOf (c :: rest) then
      let run := ((c :: rest).drop 5).takeWhile isTimeChar
      if run.isEmpty then allTimeToksAux fuel rest
      else run.asString :: allTimeToksAux fuel (((c :: rest).drop 5).drop run.length)
    else allTimeToksAux fuel rest

def allTimeToks (l : List Char) : List String := allTimeToksAux l.length l

/-- One firing of the `data` handler: `stderr += s`, then publish the first
captured time token of this chunk when present (and a job id was given). -/
def stderrStep (jobIdPresent : Bool) (st : String × List String) (chunk : String) :
    String × List String :=
  let acc := st.1 ++ chunk
  match extractTime chunk with
  | some tv => if jobIdPresent then (acc, st.2 ++ [tv]) else (acc, st.2)
  | none => (acc, st.2)

/-- The `time` values published for a job (job id present), over the chunk
sequence delivered by the child's stderr stream, in publication order. -/
def publishedTimes (chunks : List String) : List String :=
  (chunks.foldl (stderrStep true) ("", [])).2

/-- Interpretation of an ffmpeg time token (`HH:MM:SS.cc`, or plain seconds)
as a number of seconds, used to state monotonicity of published times. -/
def parseNatDigits (l : List Char) : ℕ :=
  l.foldl (fun n c => n * 10 + (c.toNat - 48)) 0

def parseDecimalQ (l : List Char) : ℚ :=
  let ip := l.takeWhile (fun c => c.isDigit)
  let rest := l.dropWhile (fun c => c.isDigit)
  let fp := match rest with
    | '.' :: fs => fs.takeWhile (fun c => c.isDigit)
    | _ => []
  (parseNatDigits ip : ℚ) + (parseNatDigits fp : ℚ) / ((10 : ℚ) ^ fp.length)

/-- Split a token at `':'` separators. -/
def splitCols : List Char → List (List Char)
  | [] => [[]]
  | c :: rest =>
    if c = ':' then [] :: splitCols rest
    else
      match splitCols rest with
      | [] => [[c]]
      | g :: gs => (c :: g) :: gs

def parseFfmpegTime (s : String) : ℚ :=
  (splitCols s.data).foldl (fun acc p => acc * 60 + parseDecimalQ p) 0

/-! ### Render job supervisor (`processRenderJob` in the worker)

The worker's effectful steps are modelled by an oracle (`JobWorld`) fixing
the outcome of each external call, and the run is the ordered list of calls
it issues plus the settled result.  `markFailed e` is the
`saveUserJob(..., {status:'failed', error: e, ...})` call issued in the catch
block (its own DB failure is swallowed by the inner try/catch and changes
nothing observable). -/

inductive JobEvent where
  | markProcessing
  | execEncode
  | uploadOutput
  | markCompleted
  | deleteMsg
  | markFailed (err : String)
deriving DecidableEq, Repr

/-- Outcomes of the worker's external calls for one message. -/
structure JobWorld where
  saveProcessingOk : Bool
  execResult : Except String (ℤ × String)
  useS3 : Bool
  uploadOk : Bool
  saveCompletedOk : Bool
  deleteOk : Bool
deriving Repr

/-- `processRenderJob(message)`, as (issued calls, settled result, whether the
queue message was actually removed).  Control flow mirrors the source: the
try block runs mark-processing, build+encode, optional S3 upload, mark
completed, then deletes the queue message; the catch block issues the
mark-failed write and rethrows, never deleting the message. -/
def processRenderJob (w : JobWorld) :
    List JobEvent × Except String Unit × Bool :=
  if w.saveProcessingOk = false then
    ([JobEvent.markProcessing, JobEvent.markFailed "save processing failed"],
     Except.error "save processing failed", false)
  else
    match w.execResult with
    | Except.error e =>
      ([JobEvent.markProcessing, JobEvent.execEncode, JobEvent.markFailed e],
       Except.error e, false)
    | Except.ok _ =>
      if w.useS3 && !w.uploadOk then
        ([JobEvent.markProcessing, JobEvent.execEncode, JobEvent.uploadOutput,
          JobEvent.markFailed "upload failed"],
         Except.error "upload failed", false)
      else
        let pre := [JobEvent.markProcessing, JobEvent.execEncode] ++
          (if w.useS3 then [JobEvent.uploadOutput] else [])
        if w.saveCompletedOk = false then
          (pre ++ [JobEvent.markCompleted, JobEvent.markFailed "save completed failed"],
           Except.error "save completed failed", false)
        else if w.deleteOk = false then
          (pre ++ [JobEvent.markCompleted, JobEvent.deleteMsg,
                   JobEvent.markFailed "delete failed"],
           Except.error "delete failed", false)
        else
          (pre ++ [JobEvent.markCompleted, JobEvent.deleteMsg], Except.ok (), true)

/-! ### Overlay compositing semantics

Each processed clip stream is scaled and padded to the full opaque canvas, so
at any instant an `overlay` step gated by `enable='between(t,start,end)'`
shows its top input exactly when `start ≤ t ≤ end` and its running composite
otherwise.  Folding that over the compiled chain (base `0:v`, clips in
enumeration order), the stream visible on top at time `t` is the
highest-indexed clip whose enable window contains `t`, or the black base when
there is none. -/

/-- ffmpeg `between(t,a,b)` is inclusive on both ends. -/
def inWindowB (c : Clip) (t : ℚ) : Bool :=
  decide (c.start ≤ t) && decide (t ≤ c.start + (c.out - c.inP))

/-- The overlay chain, stepwise: carries the clip index `i` (the loop's
`count-1`) and the running composite (`none` = bare black base). -/
def visibleTopAux (t : ℚ) : ℕ → Option ℕ → List RClip → Option ℕ
  | _, acc, [] => acc
  | i, acc, c :: rest =>
    visibleTopAux t (i + 1) (if inWindowB c.clip t then some i else acc) rest

/-- Which video clip (by enumeration index) the compiled overlay chain leaves
visible on top at time `t`; `none` means only the black base. -/
def visibleTop (v : List RClip) (t : ℚ) : Option ℕ := visibleTopAux t 0 none v

/-- The `last` label threaded through the overlay loop after `k` steps:
`0:v` before the first overlay, `base k` afterwards. -/
def chainLabel : ℕ → String
  | 0 => "0:v"
  | Nat.succ k => "base" ++ toString (k + 1)

/-! ### Closed forms of the compiler's loops -/

lemma videoLoopAux_ins (cs : List RClip) :
    ∀ vi, (videoLoopAux cs vi).1 = (cs.map (fun c => ["-i", c.path])).flatten := by
  induction cs with
  | nil => intro vi; simp [videoLoopAux]
  | cons c rest ih => intro vi; simp [videoLoopAux, ih (vi + 1)]

lemma audioLoopAux_ins (cs : List RClip) :
    ∀ ai, (audioLoopAux cs ai).1 = (cs.map (fun c => ["-i", c.path])).flatten := by
  induction cs with
  | nil => intro ai; simp [audioLoopAux]
  | cons c rest ih => intro ai; simp [audioLoopAux, ih (ai + 1)]

lemma videoLoopAux_labels (cs : List RClip) :
    ∀ vi, (videoLoopAux cs vi).2.2 =
      (List.range' vi cs.length).map (fun i => "v" ++ toString i) := by
  induction cs with
  | nil => intro vi; simp [videoLoopAux]
  | cons c rest ih =>
    intro vi
    simp [videoLoopAux, ih (vi + 1), List.range'_succ]

lemma videoLoopAux_parts_get (cs : List RClip) :
    ∀ vi k, (videoLoopAux cs vi).2.1[k]? =
      (cs[k]?).map (fun c => videoChainStr (vi + k) c) := by
  induction cs with
  | nil => intro vi k; simp [videoLoopAux]
  | cons c rest ih =>
    intro vi k
    cases k with
    | zero => simp [videoLoopAux]
    | succ k =>
      have h := ih (vi + 1) k
      simp only [videoLoopAux, List.getElem?_cons_succ, h]
      have : vi + 1 + k = vi + (k + 1) := by omega
      rw [this]

lemma audioLoopAux_parts_get (cs : List RClip) :
    ∀ ai k, (audioLoopAux cs ai).2.1[k]? =
      (cs[k]?).map (fun c => audioChainStr (ai + k) c) := by
  induction cs with
  | nil => intro ai k; simp [audioLoopAux]
  | cons c rest ih =>
    intro ai k
    cases k with
    | zero => simp [audioLoopAux]
    | succ k =>
      have h := ih (ai + 1) k
      simp only [audioLoopAux, List.getElem?_cons_succ, h]
      have : ai + 1 + k = ai + (k + 1) := by omega
      rw [this]

lemma audioLoopAux_parts_len (cs : List RClip) :
    ∀ ai, (audioLoopAux cs ai).2.1.length = cs.length := by
  induction cs with
  | nil => intro ai; simp [audioLoopAux]
  | cons c rest ih => intro ai; simp [audioLoopAux, ih (ai + 1)]

lemma audioLoopAux_labels_empty (cs : List RClip) :
    ∀ ai, (audioLoopAux cs ai).2.2.isEmpty = cs.isEmpty := by
  intro ai
  cases cs <;> simp [audioLoopAux]

lemma chainLabel_succ (k : ℕ) : chainLabel (k + 1) = "base" ++ toString (k + 1) := rfl

/-- Closed form of the overlay loop: starting from the running label
`chainLabel j` at `count = j + 1` with the remaining labels
`v(j+1) … v(j+m)`, it emits one overlay step per remaining clip, pairing
step `k` with `videoClips[k]`, and ends on label `chainLabel (j+m)`. -/
lemma overlayAux_spec (V : List RClip) :
    ∀ (m j : ℕ),
      overlayAux V ((List.range' (j + 1) m).map (fun i => "v" ++ toString i))
        (chainLabel j) (j + 1) =
      ((List.range' j m).map (fun k =>
         overlayStep (chainLabel k) ("v" ++ toString (k + 1)) (k + 1)
           (V.getD k rclipDefault)),
       chainLabel (j + m)) := by
  intro m
  induction m with
  | zero => intro j; simp [overlayAux]
  | succ m ih =>
    intro j
    rw [List.range'_succ, List.range'_succ]
    simp only [List.map_cons, overlayAux]
    have h1 : j + 1 - 1 = j := by omega
    have h2 : ("base" ++ toString (j + 1)) = chainLabel (j + 1) := rfl
    rw [h1, h2]
    have h3 := ih (j + 1)
    have h4 : j + 1 + 1 = (j + 1) + 1 := rfl
    rw [h4, h3]
    have h5 : j + 1 + m = j + (m + 1) := by omega
    rw [h5]

/-- Instantiation at the loop's actual entry state. -/
lemma overlayAux_closed (V : List RClip) :
    overlayAux V ((videoLoopAux V 1).2.2) "0:v" 1 =
      ((List.range V.length).map (fun k =>
         overlayStep (chainLabel k) ("v" ++ toString (k + 1)) (k + 1)
           (V.getD k rclipDefault)),
       chainLabel V.length) := by
  have h := overlayAux_spec V V.length 0
  rw [videoLoopAux_labels]
  simpa [List.range_eq_range'] using h

/-! ### Lemmas about the overlay-chain semantics -/

lemma visibleTopAux_some (t : ℚ) :
    ∀ (l : List RClip) (i : ℕ) (acc : Option ℕ) (k : ℕ),
      visibleTopAux t i acc l = some k →
      acc = some k ∨
      ∃ c, l[k - i]? = some c ∧ i ≤ k ∧ inWindowB c.clip t = true := by
  intro l
  induction l with
  | nil => intro i acc k h; exact Or.inl h
  | cons c rest ih =>
    intro i acc k h
    simp only [visibleTopAux] at h
    rcases ih (i + 1) _ k h with hacc | ⟨c', hg, hik, hw⟩
    · by_cases hwin : inWindowB c.clip t
      · simp [hwin] at hacc
        subst hacc
        refine Or.inr ⟨c, ?_, le_refl i, hwin⟩
        simp
      · simp [hwin] at hacc
        exact Or.inl hacc
    · refine Or.inr ⟨c', ?_, by omega, hw⟩
      have hki : k - i = (k - (i + 1)) + 1 := by omega
      rw [hki]
      simpa using hg

lemma visibleTopAux_from_some (t : ℚ) :
    ∀ (l : List RClip) (i a : ℕ), a ≤ i →
      ∃ m, visibleTopAux t i (some a) l = some m ∧ a ≤ m := by
  intro l
  induction l with
  | nil => intro i a ha; exact ⟨a, rfl, le_refl a⟩
  | cons c rest ih =>
    intro i a ha
    by_cases hwin : inWindowB c.clip t
    · rcases ih (i + 1) i (by omega) with ⟨m, hm, him⟩
      exact ⟨m, by simpa [visibleTopAux, hwin] using hm, by omega⟩
    · rcases ih (i + 1) a (by omega) with ⟨m, hm, ham⟩
      exact ⟨m, by simpa [visibleTopAux, hwin] using hm, ham⟩

lemma visibleTopAux_dominates (t : ℚ) :
    ∀ (l : List RClip) (i : ℕ) (acc : Option ℕ) (j : ℕ) (c : RClip),
      l[j]? = some c → inWindowB c.clip t = true →
      ∃ m, visibleTopAux t i acc l = some m ∧ i + j ≤ m := by
  intro l
  induction l with
  | nil => intro i acc j c hg; simp at hg
  | cons d rest ih =>
    intro i acc j c hg hw
    cases j with
    | zero =>
      simp at hg
      subst hg
      rcases visibleTopAux_from_some t rest (i + 1) i (by omega) with ⟨m, hm, him⟩
      exact ⟨m, by simpa [visibleTopAux, hw] using hm, by omega⟩
    | succ j =>
      simp at hg
      rcases ih (i + 1) (if inWindowB d.clip t then some i else acc) j c hg hw with
        ⟨m, hm, him⟩
      exact ⟨m, by simpa [visibleTopAux] using hm, by omega⟩

/-! ### Lemmas about clip collection, pruning, and the timeline's clip set -/

/-- Dropping the clips whose `fileId` resolves to no file leaves
`resolveClips` unchanged: the source already skips exactly those. -/
lemma resolveClips_filter (files : List FileRec) (cs : List Clip) :
    resolveClips files
      (cs.filter (fun c => (files.find? (fun x => x.id == c.fileId)).isSome)) =
    resolveClips files cs := by
  induction cs with
  | nil => rfl
  | cons c rest ih =>
    by_cases h : (files.find? (fun x => x.id == c.fileId)).isSome
    · rcases Option.isSome_iff_exists.mp h with ⟨f, hf⟩
      simp only [List.filter_cons, h, if_pos, resolveClips, hf]
      rw [ih]
    · have hn : files.find? (fun x => x.id == c.fileId) = none :=
        Option.not_isSome_iff_eq_none.mp h
      simp only [List.filter_cons, h, resolveClips, hn]
      simpa [resolveClips, hn] using ih

/-- Timeline with the unresolvable clips removed from every track. -/
def pruneTracks (files : List FileRec) (tracks : List Track) : List Track :=
  tracks.map (fun t =>
    ⟨t.type, t.clips.filter (fun c => (files.find? (fun x => x.id == c.fileId)).isSome)⟩)

lemma collectClips_prune (tracks : List Track) (files : List FileRec) :
    collectClips (pruneTracks files tracks) files = collectClips tracks files := by
  induction tracks with
  | nil => rfl
  | cons t rest ih =>
    simp only [pruneTracks, List.map_cons, collectClips] at ih ⊢
    rw [ih, resolveClips_filter]

/-- A timeline whose tracks all have empty clip lists collects nothing. -/
lemma collectClips_nil (tracks : List Track) (files : List FileRec)
    (h : ∀ t ∈ tracks, t.clips = []) : collectClips tracks files = ([], []) := by
  induction tracks with
  | nil => rfl
  | cons t rest ih =>
    have ht : t.clips = [] := h t (by simp)
    have ihr := ih (fun t' ht' => h t' (by simp [ht']))
    simp [collectClips, ht, resolveClips, ihr]

/-- Every clip of the timeline, in track/clip enumeration order. -/
def allTimelineClips (tracks : List Track) : List Clip :=
  (tracks.map (fun t => t.clips)).flatten

/-- When every clip of a list resolves, `resolveClips` is just the clip list
decorated with file data. -/
lemma resolveClips_total (files : List FileRec) (cs : List Clip)
    (h : ∀ c ∈ cs, (files.find? (fun x => x.id == c.fileId)).isSome) :
    (resolveClips files cs).map (fun r => r.clip) = cs := by
  induction cs with
  | nil => rfl
  | cons c rest ih =>
    rcases Option.isSome_iff_exists.mp (h c (by simp)) with ⟨f, hf⟩
    simp only [resolveClips, hf, List.map_cons]
    rw [ih (fun c' hc' => h c' (by simp [hc']))]

/-- When every track is typed video/audio and every clip resolves, the
collected video clips followed by the collected audio clips are a
permutation of the timeline's clips. -/
lemma collectClips_perm (tracks : List Track) (files : List FileRec)
    (h : ∀ t ∈ tracks, (t.type = "video" ∨ t.type = "audio") ∧
        ∀ c ∈ t.clips, (files.find? (fun x => x.id == c.fileId)).isSome) :
    ((collectClips tracks files).1.map (fun r => r.clip) ++
     (collectClips tracks files).2.map (fun r => r.clip)).Perm
      (allTimelineClips tracks) := by
  induction tracks with
  | nil => simp [collectClips, allTimelineClips]
  | cons t rest ih =>
    have ht := h t (by simp)
    have ihr := ih (fun t' ht' => h t' (by simp [ht']))
    have hres : (resolveClips files t.clips).map (fun r => r.clip) = t.clips :=
      resolveClips_total files t.clips ht.2
    have hall : allTimelineClips (t :: rest) = t.clips ++ allTimelineClips rest := by
      simp [allTimelineClips]
    rcases ht.1 with hv | ha
    · simp only [collectClips, hall]
      rw [if_pos hv, List.map_append, hres, List.append_assoc]
      exact List.Perm.append_left t.clips ihr
    · have hv' : ¬ t.type = "video" := by rw [ha]; decide
      simp only [collectClips, hall]
      rw [if_neg hv', if_pos ha, List.map_append, hres, ← List.append_assoc]
      refine List.Perm.trans ((List.perm_append_comm).append_right _) ?_
      rw [List.append_assoc]
      exact List.Perm.append_left t.clips ihr

/-! ### Lemmas about the progress reporter -/

lemma stderr_fold_published (chunks : List String) :
    ∀ (s : String) (acc : List String),
      (chunks.foldl (stderrStep true) (s, acc)).2 =
        acc ++ chunks.filterMap extractTime := by
  induction chunks with
  | nil => intro s acc; simp
  | cons c rest ih =>
    intro s acc
    simp only [List.foldl_cons, List.filterMap_cons, stderrStep]
    cases h : extractTime c with
    | none => simp [ih]
    | some tv => simp [ih]

/-- The published sequence is exactly the first time token of each chunk
that has one, in chunk order. -/
lemma publishedTimes_eq (chunks : List String) :
    publishedTimes chunks = chunks.filterMap extractTime := by
  simpa using stderr_fold_published chunks "" []

lemma firstTimeTok_eq_headAux :
    ∀ (fuel : ℕ) (l : List Char), l.length ≤ fuel →
      firstTimeTok l = (allTimeToksAux fuel l).head? := by
  intro fuel
  induction fuel with
  | zero =>
    intro l hl
    have : l = [] := List.length_eq_zero.mp (Nat.le_zero.mp hl)
    subst this
    rfl
  | succ fuel ih =>
    intro l hl
    cases l with
    | nil => rfl
    | cons c rest =>
      have hrl : rest.length ≤ fuel := by
        simp only [List.length_cons] at hl
        omega
      rw [firstTimeTok, allTimeToksAux]
      by_cases hpre : ("time=".data).isPrefixOf (c :: rest) = true
      · simp only [hpre, if_pos]
        by_cases hrun : (((c :: rest).drop 5).takeWhile isTimeChar).isEmpty = true
        · simp only [hrun, if_pos]
          exact ih rest hrl
        · simp only [hrun, if_neg]
          simp [Bool.not_eq_true] at hrun
          simp [hrun]
      · simp only [Bool.not_eq_true] at hpre
        simp only [hpre]
        exact ih rest hrl

/-- The single match the handler uses is the head of the stream of all
matches in the chunk. -/
lemma firstTimeTok_eq_head (l : List Char) :
    firstTimeTok l = (allTimeToks l).head? :=
  firstTimeTok_eq_headAux l.length l le_rfl

/-- Per-chunk first tokens form a sublist of the tokens of all chunks. -/
lemma publishedTimes_sublist (chunks : List String) :
    (publishedTimes chunks).Sublist
      ((chunks.map (fun s => allTimeToks s.data)).flatten) := by
  rw [publishedTimes_eq]
  induction chunks with
  | nil => simp
  | cons c rest ih =>
    simp only [List.filterMap_cons, List.map_cons, List.flatten_cons]
    cases h : extractTime c with
    | none =>
      have hnil : allTimeToks c.data = [] := by
        have := firstTimeTok_eq_head c.data
        rw [extractTime] at h
        rw [h] at this
        exact List.head?_eq_none_iff.mp this.symm
      rw [hnil]
      simpa using ih
    | some tv =>
      have hhead : (allTimeToks c.data).head? = some tv := by
        have := firstTimeTok_eq_head c.data
        rw [extractTime] at h
        rw [h] at this
        exact this.symm
      rcases List.head?_eq_some_iff.mp hhead with ⟨tl, htl⟩
      rw [htl]
      exact List.Sublist.cons₂ tv (ih.trans (List.sublist_append_right tl _))

lemma codeDuration_nil : codeDuration [] [] = 11 := by
  simp only [codeDuration, List.append_nil, List.foldl_nil]
  norm_num

/-- The compiled argv for a timeline that collects no clips at all. -/
lemma build_no_clips (env : Env) (p : Project) (files : List FileRec) (o : Option Opts)
    (hc : collectClips p.tracks files = ([], [])) :
    buildFfmpegCommand env p files o =
      ["-f", "lavfi", "-t", "11", "-r", qs (p.fps.getD 30), "-i", blackSrc,
       "-filter_complex", "", "-map", "[0:v]", "-an",
       "-c:v", "libx264", "-preset", (presetSettings o).1,
       "-crf", toString (presetSettings o).2, "-pix_fmt", "yuv420p",
       "-movflags", "+faststart"] := by
  have h1 : toString (11 : ℤ) = "11" := by decide
  have h2 : String.intercalate ";" ([] : List String) = "" := rfl
  have h3 : "[" ++ "0:v" ++ "]" = "[0:v]" := rfl
  simp only [buildFfmpegCommand, hc, codeDuration_nil, videoLoopAux, audioLoopAux,
    overlayAux, List.length_nil, List.isEmpty_nil, if_pos, List.nil_append,
    List.append_nil, h1, h2, h3]
  simp

/-- The `-t` value handed to the lavfi black source is argv position 3. -/
lemma build_t_arg (env : Env) (p : Project) (files : List FileRec) (o : Option Opts) :
    (buildFfmpegCommand env p files o)[3]? =
      some (toString (codeDuration (collectClips p.tracks files).1
        (collectClips p.tracks files).2)) := by
  simp only [buildFfmpegCommand]
  simp

/-- The duration expression exactly as the spec sentence words it: maximum
over all clips of the timeline of `start + (out − in)`, floored at 10
seconds, plus a one-second safety margin, rounded up to the next whole
second.  (Second, spec-side definition, for comparison with `codeDuration`.) -/
def specDuration (cs : List Clip) : ℤ :=
  ⌈(cs.foldl (fun d c => max d (c.start + (c.out - c.inP))) (10 : ℚ)) + 1⌉

/-! ### Demo data shared by the concrete witnesses -/

def fileA : FileRec := ⟨"A", "/media/a.mp4", "video/mp4", "a.mp4"⟩

def demoClip1 : Clip := ⟨"A", 0, 0, 5⟩

def demoClip2 : Clip := ⟨"A", 2, 0, 5⟩

def demoAClip : Clip := ⟨"A", -(3/2), 0, 5⟩

def demoProject : Project :=
  ⟨some 30, [⟨"video", [demoClip1]⟩, ⟨"video", [demoClip2]⟩, ⟨"audio", [demoAClip]⟩]⟩

def demoR1 : RClip := ⟨demoClip1, fileA.path, fileA.mimetype, fileA.name⟩

def demoR2 : RClip := ⟨demoClip2, fileA.path, fileA.mimetype, fileA.name⟩

def demoRA : RClip := ⟨demoAClip, fileA.path, fileA.mimetype, fileA.name⟩

lemma demo_collect : collectClips demoProject.tracks [fileA] = ([demoR1, demoR2], [demoRA]) := by
  simp [demoProject, collectClips, resolveClips, fileA, demoR1, demoR2, demoRA,
    demoClip1, demoClip2, demoAClip, List.find?]

/-! ## The claims -/

/-- The video clips the compiler works from (`videoClips` in the source). -/
def compiledV (p : Project) (files : List FileRec) : List RClip :=
  (collectClips p.tracks files).1

/-- The audio clips the compiler works from (`audioClips` in the source). -/
def compiledA (p : Project) (files : List FileRec) : List RClip :=
  (collectClips p.tracks files).2

/-- **C1.** The compiled filter graph composites video by sequential overlay
in track/clip enumeration order starting from the black base: the overlay
part list is exactly one `overlayStep` per video clip, chaining
`0:v → base1 → … → baseN` and gating step `k` with
`enable='between(t, start, start+(out-in))'` of clip `k`.  Consequently, in
the chain's compositing semantics (`visibleTop`), a clip is never the
visible composite outside its enable window, and whenever a higher-indexed
clip's window contains `t`, no lower-indexed clip can be the visible
composite — higher tracks overlay lower ones at points of overlap. -/
theorem overlay_composition (env : Env) (p : Project) (files : List FileRec)
    (o : Option Opts) :
    ((overlayAux (compiledV p files) (videoLoopAux (compiledV p files) 1).2.2 "0:v" 1).1 =
      (List.range (compiledV p files).length).map (fun k =>
        overlayStep (chainLabel k) ("v" ++ toString (k + 1)) (k + 1)
          ((compiledV p files).getD k rclipDefault))) ∧
    (∀ (k : ℕ) (c : RClip) (t : ℚ), (compiledV p files)[k]? = some c →
        inWindowB c.clip t = false → visibleTop (compiledV p files) t ≠ some k) ∧
    (∀ (j k : ℕ) (ck : RClip) (t : ℚ), j < k → (compiledV p files)[k]? = some ck →
        inWindowB ck.clip t = true → visibleTop (compiledV p files) t ≠ some j) := by
  refine ⟨congrArg Prod.fst (overlayAux_closed (compiledV p files)), ?_, ?_⟩
  · intro k c t hg hw heq
    rcases visibleTopAux_some t (compiledV p files) 0 none k heq with hacc | ⟨c', hg', _, hw'⟩
    · exact Option.noConfusion hacc
    · rw [Nat.sub_zero] at hg'
      rw [hg] at hg'
      cases hg'
      rw [hw] at hw'
      exact Bool.noConfusion hw'
  · intro j k ck t hjk hg hw heq
    rcases visibleTopAux_dominates t (compiledV p files) 0 none k ck hg hw with ⟨m, hm, hkm⟩
    rw [visibleTop] at heq
    rw [heq] at hm
    cases hm
    omega

/-- Witness for C1: the demo timeline has video clips on two tracks with
windows `[0,5]` and `[2,7]`; the compiled overlay parts are the two expected
steps, clip 0 is not visible at `t=6` (after its window), and clip 0 is not
visible at `t=3` where clip 1's window also contains `t`. -/
theorem overlay_composition_witness :
    ((overlayAux [demoR1, demoR2] (videoLoopAux [demoR1, demoR2] 1).2.2 "0:v" 1).1 =
      [overlayStep "0:v" "v1" 1 demoR1, overlayStep "base1" "v2" 2 demoR2]) ∧
    visibleTop [demoR1, demoR2] 6 ≠ some 0 ∧
    visibleTop [demoR1, demoR2] 3 ≠ some 0 := by
  have h := overlay_composition env0 demoProject [fileA] none
  have hV : compiledV demoProject [fileA] = [demoR1, demoR2] := by
    rw [compiledV, demo_collect]
  rw [hV] at h
  refine ⟨?_, ?_, ?_⟩
  · rw [h.1]
    rfl
  · refine h.2.1 0 demoR1 6 (by decide) ?_
    simp [inWindowB, demoR1, demoClip1]
    norm_num
  · refine h.2.2 0 1 demoR2 3 (by omega) (by decide) ?_
    simp [inWindowB, demoR2, demoClip2]
    norm_num

/-- **C9.** The compiled argv has the fixed input layout: the synthetic
black base is input 0, then each resolved video clip's file in enumeration
order (indices 1..V), then each resolved audio clip's file (indices
V+1..V+A); the k-th video filter chain reads input `1+k` and the k-th audio
filter chain reads input `1+V+k`, so every input index referenced by a
filter chain is below the input count `1+V+A`. -/
theorem input_layout (env : Env) (p : Project) (files : List FileRec) (o : Option Opts) :
    (buildFfmpegCommand env p files o =
      ["-f", "lavfi", "-t", toString (codeDuration (compiledV p files) (compiledA p files)),
       "-r", qs (p.fps.getD 30), "-i", blackSrc] ++
      ((compiledV p files).map (fun c => ["-i", c.path])).flatten ++
      ((compiledA p files).map (fun c => ["-i", c.path])).flatten ++
      ["-filter_complex", String.intercalate ";"
        ((videoLoopAux (compiledV p files) 1).2.1 ++
         (overlayAux (compiledV p files) (videoLoopAux (compiledV p files) 1).2.2 "0:v" 1).1 ++
         (audioLoopAux (compiledA p files) (1 + (compiledV p files).length)).2.1 ++
         (if (audioLoopAux (compiledA p files) (1 + (compiledV p files).length)).2.2.isEmpty
          then [] else
            [amixStr (audioLoopAux (compiledA p files) (1 + (compiledV p files).length)).2.2]))] ++
      ["-map", "[" ++
        (overlayAux (compiledV p files) (videoLoopAux (compiledV p files) 1).2.2 "0:v" 1).2 ++ "]"] ++
      (if (audioLoopAux (compiledA p files) (1 + (compiledV p files).length)).2.2.isEmpty
       then ["-an"] else ["-map", "[aout]", "-c:a", "aac", "-b:a", "192k"]) ++
      ["-c:v", "libx264", "-preset", (presetSettings o).1, "-crf",
       toString (presetSettings o).2, "-pix_fmt", "yuv420p", "-movflags", "+faststart"]) ∧
    (∀ (k : ℕ) (c : RClip), (compiledV p files)[k]? = some c →
      (videoLoopAux (compiledV p files) 1).2.1[k]? = some (videoChainStr (1 + k) c) ∧
      1 + k < 1 + (compiledV p files).length + (compiledA p files).length) ∧
    (∀ (k : ℕ) (c : RClip), (compiledA p files)[k]? = some c →
      (audioLoopAux (compiledA p files) (1 + (compiledV p files).length)).2.1[k]? =
        some (audioChainStr (1 + (compiledV p files).length + k) c) ∧
      1 + (compiledV p files).length + k <
        1 + (compiledV p files).length + (compiledA p files).length) := by
  refine ⟨?_, ?_, ?_⟩
  · simp only [buildFfmpegCommand, compiledV, compiledA, videoLoopAux_ins, audioLoopAux_ins]
    simp [List.append_assoc]
  · intro k c hg
    have hk : k < (compiledV p files).length := by
      rcases List.getElem?_eq_some.mp hg with ⟨hlt, _⟩
      exact hlt
    refine ⟨?_, by omega⟩
    rw [videoLoopAux_parts_get (compiledV p files) 1 k, hg]
    rfl
  · intro k c hg
    have hk : k < (compiledA p files).length := by
      rcases List.getElem?_eq_some.mp hg with ⟨hlt, _⟩
      exact hlt
    refine ⟨?_, by omega⟩
    rw [audioLoopAux_parts_get (compiledA p files) (1 + (compiledV p files).length) k, hg]
    rfl

/-- Witness for C9 at the demo timeline (V = 2 video clips, A = 1 audio
clip): the audio chain reads input index 3 = 1+V+0 and 3 < 4 = 1+V+A. -/
theorem input_layout_witness :
    (audioLoopAux [demoRA] 3).2.1[0]? = some (audioChainStr 3 demoRA) ∧ 3 < 4 := by
  have h := (input_layout env0 demoProject [fileA] none).2.2 0 demoRA
    (by simp [compiledA, demo_collect])
  rw [compiledA, compiledV, demo_collect] at h
  simpa using h

/-- **C10.** The delay compiled into an audio clip's `adelay` filter is
`Math.max(0, Math.floor(start*1000))` milliseconds — a non-negative integer
for every real-valued `start`, including negative or fractional-millisecond
starts — and the k-th compiled audio chain is exactly `audioChainStr`
(which renders that delay) at input index 1+V+k. -/
theorem adelay_clamped (env : Env) (p : Project) (files : List FileRec)
    (o : Option Opts) (k : ℕ) (c : RClip)
    (h : (compiledA p files)[k]? = some c) :
    (audioLoopAux (compiledA p files) (1 + (compiledV p files).length)).2.1[k]? =
      some (audioChainStr (1 + (compiledV p files).length + k) c) ∧
    delayMs c.clip = max 0 ⌊c.clip.start * 1000⌋ ∧
    0 ≤ delayMs c.clip := by
  refine ⟨?_, rfl, le_max_left 0 _⟩
  rw [audioLoopAux_parts_get (compiledA p files) (1 + (compiledV p files).length) k, h]
  rfl

/-- Witness for C10: the demo audio clip has `start = -3/2` seconds, so the
compiled delay is `max(0, ⌊-1500⌋) = 0`. -/
theorem adelay_clamped_witness :
    (audioLoopAux [demoRA] 3).2.1[0]? = some (audioChainStr (1 + 2 + 0) demoRA) ∧
    delayMs demoRA.clip = max 0 ⌊demoRA.clip.start * 1000⌋ ∧
    0 ≤ delayMs demoRA.clip ∧
    delayMs demoRA.clip = 0 := by
  have h := adelay_clamped env0 demoProject [fileA] none 0 demoRA
    (by simp [compiledA, demo_collect])
  rw [compiledA, compiledV, demo_collect] at h
  refine ⟨by simpa using h.1, h.2.1, h.2.2, ?_⟩
  simp only [delayMs, demoRA, demoAClip]
  norm_num

/-- **C7.** Compiling the same timeline, resolved clips and options twice
yields byte-identical argv: `buildFfmpegCommand` reads nothing from the
ambient runtime (`Env` holds the clock and random source available to JS),
so its output is a function of its three arguments alone — no hidden
randomness or timestamps. -/
theorem compile_deterministic (e₁ e₂ : Env) (p : Project) (files : List FileRec)
    (o : Option Opts) :
    buildFfmpegCommand e₁ p files o = buildFfmpegCommand e₂ p files o := rfl

/-- **C4.** A clip whose `fileId` has no matching entry in the resolved file
list is silently skipped, not fatal: removing all such clips from the
timeline leaves the compiled argv (inputs and filter graph alike) unchanged,
and compilation of the remaining clips still succeeds (the compiler is a
total function — it has no failure path at all). -/
theorem unresolved_clips_skipped (env : Env) (p : Project) (files : List FileRec)
    (o : Option Opts) :
    buildFfmpegCommand env ⟨p.fps, pruneTracks files p.tracks⟩ files o =
      buildFfmpegCommand env p files o := by
  simp only [buildFfmpegCommand, collectClips_prune]

/-- **C2, counterexample.** For the timeline with zero clips the compiled
argv gives the black base input `-t 11`, i.e. eleven seconds, not the
claimed `floor(10s) = 10`: the compiler applies `Math.ceil(duration + 1)`
to the 10-second floor. -/
theorem empty_timeline_duration_is_11 :
    codeDuration (collectClips (Project.mk none []).tracks []).1
      (collectClips (Project.mk none []).tracks []).2 = 11 ∧
    (buildFfmpegCommand env0 (Project.mk none []) [] none).take 4 =
      ["-f", "lavfi", "-t", "11"] ∧
    ("11" : String) ≠ "10" := by
  refine ⟨by simpa [collectClips] using codeDuration_nil, ?_, by decide⟩
  rw [build_no_clips env0 (Project.mk none []) [] none (by simp [collectClips])]
  decide

/-- **C2, amended.** For every timeline with zero clips, compile produces a
valid argv whose synthetic black base input encodes exactly **11** seconds of
solid black video — the 10-second floor plus the one-second safety margin,
rounded up (`Math.ceil(10 + 1)`); the full argv is the black base, an empty
filter graph, the base mapped as video output and audio disabled. -/
theorem empty_timeline_black_video (env : Env) (p : Project) (files : List FileRec)
    (o : Option Opts) (h : ∀ t ∈ p.tracks, t.clips = []) :
    buildFfmpegCommand env p files o =
      ["-f", "lavfi", "-t", "11", "-r", qs (p.fps.getD 30), "-i", blackSrc,
       "-filter_complex", "", "-map", "[0:v]", "-an",
       "-c:v", "libx264", "-preset", (presetSettings o).1,
       "-crf", toString (presetSettings o).2, "-pix_fmt", "yuv420p",
       "-movflags", "+faststart"] :=
  build_no_clips env p files o (collectClips_nil p.tracks files h)

/-- Witness for the amended C2 at a concrete input. -/
theorem empty_timeline_black_video_witness :
    buildFfmpegCommand env0 (Project.mk (some 30) [Track.mk "video" []]) [fileA] none =
      ["-f", "lavfi", "-t", "11", "-r", "30", "-i", "color=c=black:s=1920x1080",
       "-filter_complex", "", "-map", "[0:v]", "-an",
       "-c:v", "libx264", "-preset", "medium", "-crf", "20", "-pix_fmt", "yuv420p",
       "-movflags", "+faststart"] := by
  have h := empty_timeline_black_video env0 (Project.mk (some 30) [Track.mk "video" []])
    [fileA] none (by intro t ht; simp at ht; rw [ht])
  rw [h]
  decide

/-- **C6.** For every timeline whose tracks are video/audio typed and whose
clips all resolve, the total duration passed to the synthetic black base
input (argv position 3) equals the maximum over all clips of
`start + (out − in)`, floored at 10 seconds, plus the one-second safety
margin, rounded up to the next whole second. -/
theorem base_duration_formula (env : Env) (p : Project) (files : List FileRec)
    (o : Option Opts)
    (h : ∀ t ∈ p.tracks, (t.type = "video" ∨ t.type = "audio") ∧
        ∀ c ∈ t.clips, (files.find? (fun x => x.id == c.fileId)).isSome) :
    codeDuration (collectClips p.tracks files).1 (collectClips p.tracks files).2 =
      specDuration (allTimelineClips p.tracks) ∧
    (buildFfmpegCommand env p files o)[3]? =
      some (toString (specDuration (allTimelineClips p.tracks))) := by
  have hperm := collectClips_perm p.tracks files h
  have hfold :
      ((collectClips p.tracks files).1.map (fun r => r.clip) ++
        (collectClips p.tracks files).2.map (fun r => r.clip)).foldl
          (fun d c => max d (c.start + (c.out - c.inP))) (10 : ℚ) =
      (allTimelineClips p.tracks).foldl
          (fun d c => max d (c.start + (c.out - c.inP))) (10 : ℚ) :=
    hperm.foldl_eq' (fun x _ y _ z => by rw [sup_right_comm]) 10
  have hmain :
      codeDuration (collectClips p.tracks files).1 (collectClips p.tracks files).2 =
        specDuration (allTimelineClips p.tracks) := by
    simp only [codeDuration, specDuration]
    rw [← hfold, ← List.map_append, List.foldl_map]
  exact ⟨hmain, by rw [build_t_arg, hmain]⟩

/-- Witness for C6 at a concrete input: two video clips and one audio clip,
all resolving; max(10, 5, 7, 3) = 10, so the base `-t` is ⌈10+1⌉ = 11. -/
theorem base_duration_formula_witness :
    codeDuration (collectClips demoProject.tracks [fileA]).1
      (collectClips demoProject.tracks [fileA]).2 =
      specDuration (allTimelineClips demoProject.tracks) ∧
    (buildFfmpegCommand env0 demoProject [fileA] none)[3]? =
      some (toString (specDuration (allTimelineClips demoProject.tracks))) := by
  refine base_duration_formula env0 demoProject [fileA] none ?_
  intro t ht
  simp only [demoProject, List.mem_cons, List.not_mem_nil, or_false] at ht
  rcases ht with h | h | h <;>
    simp [h, fileA, demoClip1, demoClip2, demoAClip, List.find?]

/-- **C3, counterexample.** The executor does reject on a nonzero exit code:
at exit code 1 with accumulated stderr `"boom"`, both `execFfmpegWithProgress`
and `execCmd` settle their promise with a rejection (`Except.error`) carrying
the exit code and stderr in the error message, rather than resolving. -/
theorem executor_rejects_nonzero :
    ffmpegClose 1 "boom" = Except.error "ffmpeg failed (1): boom" ∧
    execCmdClose 1 "out" "boom" = Except.error "cmd failed (1): boom" := by
  constructor <;> rfl

/-- **C3, amended.** On a nonzero exit code the process executor rejects
(throws) with an error message that carries the exit code and the accumulated
stderr text; on exit code 0 it resolves with the exit code and the captured
streams.  The caller (the render supervisor) catches the rejection and
decides failure handling. -/
theorem executor_exit_reporting (code : ℤ) (stdout stderr : String) :
    (code ≠ 0 →
      ffmpegClose code stderr =
        Except.error ("ffmpeg failed (" ++ toString code ++ "): " ++ stderr) ∧
      execCmdClose code stdout stderr =
        Except.error ("cmd failed (" ++ toString code ++ "): " ++ stderr)) ∧
    (code = 0 →
      ffmpegClose code stderr = Except.ok (code, stderr) ∧
      execCmdClose code stdout stderr = Except.ok (code, stdout, stderr)) := by
  constructor
  · intro h
    exact ⟨if_neg h, if_neg h⟩
  · intro h
    subst h
    exact ⟨if_pos rfl, if_pos rfl⟩

/-- Witness for the amended C3 at concrete exit codes. -/
theorem executor_exit_reporting_witness :
    ffmpegClose 2 "e" = Except.error "ffmpeg failed (2): e" ∧
    ffmpegClose 0 "e" = Except.ok (0, "e") := by
  refine ⟨?_, ?_⟩
  · exact ((executor_exit_reporting 2 "o" "e").1 (by decide)).1.trans rfl
  · exact ((executor_exit_reporting 0 "o" "e").2 rfl).1

lemma prj_delete_after_completed (w : JobWorld)
    (hdm : JobEvent.deleteMsg ∈ (processRenderJob w).1) :
    ∃ pre suf, (processRenderJob w).1 =
        pre ++ [JobEvent.markCompleted, JobEvent.deleteMsg] ++ suf ∧
      JobEvent.deleteMsg ∉ pre := by
  obtain ⟨sp, er, s3, up, sc, dk⟩ := w
  cases sp
  · simp [processRenderJob] at hdm
  · cases er with
    | error e => simp [processRenderJob] at hdm
    | ok v =>
      cases s3 <;> cases up <;> cases sc <;> cases dk <;>
        first
          | (simp [processRenderJob] at hdm; done)
          | (refine ⟨[JobEvent.markProcessing, JobEvent.execEncode], [], ?_, ?_⟩ <;>
              simp [processRenderJob] <;> done)
          | (refine ⟨[JobEvent.markProcessing, JobEvent.execEncode],
              [JobEvent.markFailed "delete failed"], ?_, ?_⟩ <;>
              simp [processRenderJob] <;> done)
          | (refine ⟨[JobEvent.markProcessing, JobEvent.execEncode, JobEvent.uploadOutput],
              [], ?_, ?_⟩ <;> simp [processRenderJob] <;> done)
          | (refine ⟨[JobEvent.markProcessing, JobEvent.execEncode, JobEvent.uploadOutput],
              [JobEvent.markFailed "delete failed"], ?_, ?_⟩ <;>
              simp [processRenderJob] <;> done)

lemma prj_success_trace (w : JobWorld)
    (hdel : (processRenderJob w).2.2 = true) :
    (processRenderJob w).1 = [JobEvent.markProcessing, JobEvent.execEncode] ++
      (if w.useS3 then [JobEvent.uploadOutput] else []) ++
      [JobEvent.markCompleted, JobEvent.deleteMsg] ∧
    (processRenderJob w).2.1 = Except.ok () := by
  obtain ⟨sp, er, s3, up, sc, dk⟩ := w
  cases sp
  · simp [processRenderJob] at hdel
  · cases er with
    | error e => simp [processRenderJob] at hdel
    | ok v =>
      cases s3 <;> cases up <;> cases sc <;> cases dk <;>
        simp [processRenderJob] at hdel ⊢

lemma prj_failure_not_deleted (w : JobWorld) (e : String)
    (herr : (processRenderJob w).2.1 = Except.error e) :
    JobEvent.markFailed e ∈ (processRenderJob w).1 ∧
    (processRenderJob w).2.2 = false := by
  obtain ⟨sp, er, s3, up, sc, dk⟩ := w
  cases sp
  · simp [processRenderJob] at herr ⊢
    simp [← herr]
  · cases er with
    | error e' =>
      simp [processRenderJob] at herr ⊢
      simp [← herr]
    | ok v =>
      cases s3 <;> cases up <;> cases sc <;> cases dk <;>
        simp [processRenderJob] at herr ⊢ <;> simp [← herr]

/-- **C5.** In queued mode, the queue message is removed only after the job
record has been marked completed following a successful encode (and upload,
when S3 is in use): whenever the run actually deletes the message, the call
trace ends `… markCompleted, deleteMsg`, the delete attempt is always
preceded by the mark-completed write, and on any exception the job record is
written as failed with the error text while the queue message is left in
place for queue-level redelivery. -/
theorem queued_ack_after_completion (w : JobWorld) :
    (JobEvent.deleteMsg ∈ (processRenderJob w).1 →
      ∃ pre suf, (processRenderJob w).1 =
          pre ++ [JobEvent.markCompleted, JobEvent.deleteMsg] ++ suf ∧
        JobEvent.deleteMsg ∉ pre) ∧
    ((processRenderJob w).2.2 = true →
      (processRenderJob w).1 = [JobEvent.markProcessing, JobEvent.execEncode] ++
        (if w.useS3 then [JobEvent.uploadOutput] else []) ++
        [JobEvent.markCompleted, JobEvent.deleteMsg] ∧
      (processRenderJob w).2.1 = Except.ok ()) ∧
    (∀ e, (processRenderJob w).2.1 = Except.error e →
      JobEvent.markFailed e ∈ (processRenderJob w).1 ∧
      (processRenderJob w).2.2 = false) :=
  ⟨prj_delete_after_completed w, prj_success_trace w,
   fun e => prj_failure_not_deleted w e⟩

def jobWorldOk : JobWorld := ⟨true, Except.ok (0, ""), false, true, true, true⟩

def jobWorldFail : JobWorld := ⟨true, Except.error "ffmpeg failed (1): boom", false, true, true, true⟩

/-- Witness for C5: a fully successful non-S3 run deletes the message right
after marking completed, and a run whose encode rejects marks the job failed
with the error text and does not delete the message. -/
theorem queued_ack_after_completion_witness :
    ((processRenderJob jobWorldOk).1 =
      [JobEvent.markProcessing, JobEvent.execEncode,
       JobEvent.markCompleted, JobEvent.deleteMsg]) ∧
    JobEvent.markFailed "ffmpeg failed (1): boom" ∈ (processRenderJob jobWorldFail).1 ∧
    (processRenderJob jobWorldFail).2.2 = false := by
  refine ⟨?_, ?_⟩
  · have h := (queued_ack_after_completion jobWorldOk).2.1 (by decide)
    simpa [jobWorldOk] using h.1
  · exact (queued_ack_after_completion jobWorldFail).2.2 "ffmpeg failed (1): boom" (by rfl)

/-- **C8, counterexample.** The progress reporter publishes whatever time
token each chunk carries, with no monotonicity enforcement: over the chunk
sequence `["time=2 ", "time=1 "]` it publishes `["2", "1"]`, whose time
values decrease — so the published sequence is not non-decreasing for every
possible chunk sequence. -/
theorem progress_not_monotone :
    publishedTimes ["time=2 ", "time=1 "] = ["2", "1"] ∧
    ¬ List.Chain' (fun a b => parseFfmpegTime a ≤ parseFfmpegTime b)
        (publishedTimes ["time=2 ", "time=1 "]) := by
  have hp : publishedTimes ["time=2 ", "time=1 "] = ["2", "1"] := by
    rw [publishedTimes_eq]
    rfl
  refine ⟨hp, ?_⟩
  rw [hp]
  have h2 : parseFfmpegTime "2" = 2 := by
    simp [parseFfmpegTime, splitCols, parseDecimalQ, parseNatDigits]
  have h1 : parseFfmpegTime "1" = 1 := by
    simp [parseFfmpegTime, splitCols, parseDecimalQ, parseNatDigits]
  simp [List.chain'_cons, h1, h2]

/-- **C8, amended.** The reporter publishes, in chunk arrival order, the
first `time=` token of each chunk, verbatim and unfiltered; the published
sequence is therefore non-decreasing whenever the time tokens of the
encoder's stderr stream are non-decreasing across the chunk sequence (which
holds for a real encode), but the reporter itself enforces nothing — an
arbitrary chunk sequence can produce a decreasing published sequence. -/
theorem progress_monotone_from_stream (chunks : List String)
    (h : List.Chain' (fun a b : ℚ => a ≤ b)
      (((chunks.map (fun s => allTimeToks s.data)).flatten).map parseFfmpegTime)) :
    List.Chain' (fun a b : ℚ => a ≤ b)
      ((publishedTimes chunks).map parseFfmpegTime) := by
  have hsub := (publishedTimes_sublist chunks).map parseFfmpegTime
  exact h.sublist hsub

/-- Witness for the amended C8: a two-chunk stream with increasing tokens
publishes a non-decreasing sequence. -/
theorem progress_monotone_from_stream_witness :
    List.Chain' (fun a b : ℚ => a ≤ b)
      ((publishedTimes ["time=1 x", "time=2 y"]).map parseFfmpegTime) := by
  apply progress_monotone_from_stream
  have hflat : ((["time=1 x", "time=2 y"].map (fun s => allTimeToks s.data)).flatten) =
      ["1", "2"] := by
    simp [allTimeToks, allTimeToksAux, isTimeChar]
    decide
  rw [hflat]
  have h2 : parseFfmpegTime "2" = 2 := by
    simp [parseFfmpegTime, splitCols, parseDecimalQ, parseNatDigits]
  have h1 : parseFfmpegTime "1" = 1 := by
    simp [parseFfmpegTime, splitCols, parseDecimalQ, parseNatDigits]
  simp [List.chain'_cons, h1, h2]
